import Mathlib

/-!
Verification of the look-at rotation core of `bevy_mod_lookat` (`src/lib.rs`).

The development shallowly embeds the library and the parts of its maths
dependencies (`bevy_transform` / `glam`) that `src/lib.rs` calls into, over
exact real arithmetic:

* `Vec3` / `Quat` mirror `glam`'s 3-vectors and quaternions with `ℝ`
  components (the idealisation of `f32`).
* `fromMat3` is `Quat::from_mat3` (Mike Day's branch-wise extraction, the
  algorithm glam implements), `anyOrthonormalVector` is
  `Vec3::any_orthonormal_vector`, `lookToRotation` is
  `Transform::look_to`'s rotation computation, including its fallbacks.
* `Transform`/`GlobalTransform` are modelled as decomposed
  translation/rotation/scale records (the spec's "World Transform" data
  model); `GlobalTransform::compute_transform` is then the identity.
* `calculate_local_rotation_to_target`, `processEntity` / `rotate_towards`
  and `update_global_transforms` are translated from `src/lib.rs`.
-/

namespace LookAt

/-- A 3-component real vector, the model of `glam::Vec3`. -/
@[ext]
structure Vec3 where
  x : ℝ
  y : ℝ
  z : ℝ

namespace Vec3

noncomputable instance : DecidableEq Vec3 := Classical.decEq _

instance : Zero Vec3 := ⟨⟨0, 0, 0⟩⟩

instance : Add Vec3 := ⟨fun v w => ⟨v.x + w.x, v.y + w.y, v.z + w.z⟩⟩

instance : Neg Vec3 := ⟨fun v => ⟨-v.x, -v.y, -v.z⟩⟩

instance : Sub Vec3 := ⟨fun v w => ⟨v.x - w.x, v.y - w.y, v.z - w.z⟩⟩

instance : SMul ℝ Vec3 := ⟨fun k v => ⟨k * v.x, k * v.y, k * v.z⟩⟩

@[simp] theorem zero_x : (0 : Vec3).x = 0 := rfl
@[simp] theorem zero_y : (0 : Vec3).y = 0 := rfl
@[simp] theorem zero_z : (0 : Vec3).z = 0 := rfl
@[simp] theorem add_x (v w : Vec3) : (v + w).x = v.x + w.x := rfl
@[simp] theorem add_y (v w : Vec3) : (v + w).y = v.y + w.y := rfl
@[simp] theorem add_z (v w : Vec3) : (v + w).z = v.z + w.z := rfl
@[simp] theorem neg_x (v : Vec3) : (-v).x = -v.x := rfl
@[simp] theorem neg_y (v : Vec3) : (-v).y = -v.y := rfl
@[simp] theorem neg_z (v : Vec3) : (-v).z = -v.z := rfl
@[simp] theorem sub_x (v w : Vec3) : (v - w).x = v.x - w.x := rfl
@[simp] theorem sub_y (v w : Vec3) : (v - w).y = v.y - w.y := rfl
@[simp] theorem sub_z (v w : Vec3) : (v - w).z = v.z - w.z := rfl
@[simp] theorem smul_x (k : ℝ) (v : Vec3) : (k • v).x = k * v.x := rfl
@[simp] theorem smul_y (k : ℝ) (v : Vec3) : (k • v).y = k * v.y := rfl
@[simp] theorem smul_z (k : ℝ) (v : Vec3) : (k • v).z = k * v.z := rfl

/-- Dot product, `Vec3::dot`. -/
def dot (v w : Vec3) : ℝ := v.x * w.x + v.y * w.y + v.z * w.z

/-- Cross product, `Vec3::cross`. -/
def cross (v w : Vec3) : Vec3 :=
  ⟨v.y * w.z - v.z * w.y, v.z * w.x - v.x * w.z, v.x * w.y - v.y * w.x⟩

/-- Euclidean length, `Vec3::length`. -/
noncomputable def length (v : Vec3) : ℝ := Real.sqrt (dot v v)

/-- Normalisation, `Vec3::normalize` (division by the length). -/
noncomputable def normalize (v : Vec3) : Vec3 := (1 / length v) • v

theorem dot_nonneg (v : Vec3) : 0 ≤ dot v v := by
  unfold dot; nlinarith [sq_nonneg v.x, sq_nonneg v.y, sq_nonneg v.z]

theorem dot_eq_zero_iff (v : Vec3) : dot v v = 0 ↔ v = 0 := by
  unfold dot
  constructor
  · intro h
    have hx : v.x = 0 := by nlinarith [sq_nonneg v.x, sq_nonneg v.y, sq_nonneg v.z]
    have hy : v.y = 0 := by nlinarith [sq_nonneg v.x, sq_nonneg v.y, sq_nonneg v.z]
    have hz : v.z = 0 := by nlinarith [sq_nonneg v.x, sq_nonneg v.y, sq_nonneg v.z]
    ext <;> simp [hx, hy, hz]
  · rintro rfl; simp

theorem length_pos_of_ne_zero {v : Vec3} (h : v ≠ 0) : 0 < length v := by
  unfold length
  apply Real.sqrt_pos.mpr
  rcases lt_or_eq_of_le (dot_nonneg v) with h' | h'
  · exact h'
  · exact absurd ((dot_eq_zero_iff v).mp h'.symm) h

theorem length_sq (v : Vec3) : length v * length v = dot v v :=
  Real.mul_self_sqrt (dot_nonneg v)

theorem dot_normalize {v : Vec3} (h : v ≠ 0) :
    dot (normalize v) (normalize v) = 1 := by
  have hl := length_pos_of_ne_zero h
  have hs := length_sq v
  unfold normalize dot at *
  field_simp
  nlinarith [hl, hs]

theorem smul_eq_zero_iff (k : ℝ) (v : Vec3) : k • v = 0 ↔ k = 0 ∨ v = 0 := by
  constructor
  · intro h
    by_cases hk : k = 0
    · exact Or.inl hk
    · refine Or.inr ?_
      have hx := congrArg Vec3.x h
      have hy := congrArg Vec3.y h
      have hz := congrArg Vec3.z h
      simp at hx hy hz
      ext <;> simp [hx.resolve_left hk, hy.resolve_left hk, hz.resolve_left hk]
  · rintro (rfl | rfl) <;> (ext <;> simp)

end Vec3

/-- A quaternion with real components, the model of `glam::Quat`;
`w` is the scalar part. -/
@[ext]
structure Quat where
  x : ℝ
  y : ℝ
  z : ℝ
  w : ℝ

namespace Quat

/-- Hamilton product, `glam::Quat::mul`. -/
def mul (a b : Quat) : Quat :=
  ⟨a.w * b.x + a.x * b.w + a.y * b.z - a.z * b.y,
   a.w * b.y - a.x * b.z + a.y * b.w + a.z * b.x,
   a.w * b.z + a.x * b.y - a.y * b.x + a.z * b.w,
   a.w * b.w - a.x * b.x - a.y * b.y - a.z * b.z⟩

/-- Conjugate, `glam::Quat::conjugate`. -/
def conjugate (q : Quat) : Quat := ⟨-q.x, -q.y, -q.z, q.w⟩

/-- The squared norm `x² + y² + z² + w²` (`glam::Quat::length_squared`). -/
def normSq (q : Quat) : ℝ := q.x * q.x + q.y * q.y + q.z * q.z + q.w * q.w

/-- Inverse as glam implements it: `Quat::inverse` asserts the quaternion is
normalised and returns the conjugate. -/
def inverse (q : Quat) : Quat := conjugate q

/-- The exact quaternion inverse (conjugate divided by the squared norm),
used to state the spec's `inverse(parentWorld.rotation)`. -/
noncomputable def exactInverse (q : Quat) : Quat := ⟨-q.x / normSq q, -q.y / normSq q, -q.z / normSq q, q.w / normSq q⟩

/-- Negation of all four components. -/
def neg (q : Quat) : Quat := ⟨-q.x, -q.y, -q.z, -q.w⟩

/-- The identity quaternion `Quat::IDENTITY`. -/
def id : Quat := ⟨0, 0, 0, 1⟩

/-- Action of a quaternion on a vector: the vector part of `q * v * conj q`
(`glam::Quat::mul_vec3` for unit quaternions). -/
def rotate (q : Quat) (v : Vec3) : Vec3 :=
  let p : Quat := ⟨v.x, v.y, v.z, 0⟩
  let r := mul (mul q p) (conjugate q)
  ⟨r.x, r.y, r.z⟩

/-- Rotation about an axis, `glam::Quat::from_axis_angle`:
`(axis * sin(angle/2), cos(angle/2))`. The axis is expected unit length. -/
noncomputable def fromAxisAngle (axis : Vec3) (angle : ℝ) : Quat :=
  ⟨axis.x * Real.sin (angle / 2), axis.y * Real.sin (angle / 2),
   axis.z * Real.sin (angle / 2), Real.cos (angle / 2)⟩

/-- Component-wise absolute-difference comparison,
`glam::Quat::abs_diff_eq` (each component within `eps`). -/
def absDiffEq (a b : Quat) (eps : ℝ) : Prop :=
  |a.x - b.x| ≤ eps ∧ |a.y - b.y| ≤ eps ∧ |a.z - b.z| ≤ eps ∧ |a.w - b.w| ≤ eps

noncomputable instance (a b : Quat) (eps : ℝ) : Decidable (absDiffEq a b eps) := by
  unfold absDiffEq; infer_instance

theorem mul_assoc (a b c : Quat) : mul (mul a b) c = mul a (mul b c) := by
  ext <;> (simp [mul]; ring)

theorem mul_conjugate_self (q : Quat) :
    mul q (conjugate q) = ⟨0, 0, 0, normSq q⟩ := by
  ext <;> (simp [mul, conjugate, normSq]; ring)

theorem normSq_mul (a b : Quat) : normSq (mul a b) = normSq a * normSq b := by
  simp [mul, normSq]; ring

theorem rotate_neg_vec (q : Quat) (v : Vec3) : rotate q (-v) = -(rotate q v) := by
  ext <;> (simp [rotate, mul, conjugate]; ring)

theorem rotate_neg_quat (q : Quat) (v : Vec3) : rotate (neg q) v = rotate q v := by
  ext <;> (simp [rotate, mul, conjugate, neg]; ring)

theorem rotate_unitZ (q : Quat) :
    rotate q ⟨0, 0, 1⟩ =
      ⟨2 * (q.x * q.z + q.y * q.w), 2 * (q.y * q.z - q.x * q.w),
       q.w * q.w + q.z * q.z - q.x * q.x - q.y * q.y⟩ := by
  ext <;> (simp [rotate, mul, conjugate]; ring)

theorem rotate_unitY (q : Quat) :
    rotate q ⟨0, 1, 0⟩ =
      ⟨2 * (q.x * q.y - q.z * q.w), q.w * q.w + q.y * q.y - q.x * q.x - q.z * q.z,
       2 * (q.y * q.z + q.x * q.w)⟩ := by
  ext <;> (simp [rotate, mul, conjugate]; ring)

end Quat

/-- Quaternion extraction from a rotation matrix given by its three columns
`xa`, `ya`, `za` — `glam::Quat::from_mat3` (Mike Day's branch-wise
algorithm).  Matrix entry `m[col][row]` is `(column).row`. -/
noncomputable def fromMat3 (xa ya za : Vec3) : Quat :=
  if za.z ≤ 0 then
    if ya.y - xa.x ≤ 0 then
      let s : ℝ := (1 - za.z) - (ya.y - xa.x)
      let inv : ℝ := (1 / 2) / Real.sqrt s
      ⟨s * inv, (xa.y + ya.x) * inv, (xa.z + za.x) * inv, (ya.z - za.y) * inv⟩
    else
      let s : ℝ := (1 - za.z) + (ya.y - xa.x)
      let inv : ℝ := (1 / 2) / Real.sqrt s
      ⟨(xa.y + ya.x) * inv, s * inv, (ya.z + za.y) * inv, (za.x - xa.z) * inv⟩
  else
    if ya.y + xa.x ≤ 0 then
      let s : ℝ := (1 + za.z) - (ya.y + xa.x)
      let inv : ℝ := (1 / 2) / Real.sqrt s
      ⟨(xa.z + za.x) * inv, (ya.z + za.y) * inv, s * inv, (xa.y - ya.x) * inv⟩
    else
      let s : ℝ := (1 + za.z) + (ya.y + xa.x)
      let inv : ℝ := (1 / 2) / Real.sqrt s
      ⟨(ya.z - za.y) * inv, (za.x - xa.z) * inv, (xa.y - ya.x) * inv, s * inv⟩

/-- Pixar's orthonormal-vector construction, `glam::Vec3::any_orthonormal_vector`
(the argument is expected unit length).  `signum z` of `f32` is `1.0` at `+0.0`,
so the real model takes `1` at `z = 0`. -/
noncomputable def anyOrthonormalVector (v : Vec3) : Vec3 :=
  let sign : ℝ := if v.z < 0 then -1 else 1
  let a : ℝ := -1 / (sign + v.z)
  let b : ℝ := v.x * v.y * a
  ⟨b, sign + v.y * v.y * a, -v.y⟩

/-- The rotation computed by `bevy Transform::look_to(direction, up)`:

* `back = -direction.try_into().unwrap_or(Dir3::NEG_Z)` — a zero direction
  falls back to `NEG_Z`, otherwise the direction is normalised;
* the `up` argument (a `Dir3` at the call site) likewise falls back to `Y`
  when zero;
* `right = up.cross(back).try_normalize().unwrap_or_else(|| up.any_orthonormal_vector())`;
* `up' = back.cross(right)`;
* result `Quat::from_mat3(Mat3::from_cols(right, up', back))`. -/
noncomputable def lookToRotation (direction up : Vec3) : Quat :=
  let back : Vec3 := if direction = 0 then ⟨0, 0, 1⟩ else -(Vec3.normalize direction)
  let upDir : Vec3 := if up = 0 then ⟨0, 1, 0⟩ else Vec3.normalize up
  let right : Vec3 :=
    if Vec3.cross upDir back = 0 then anyOrthonormalVector upDir
    else Vec3.normalize (Vec3.cross upDir back)
  let newUp : Vec3 := Vec3.cross back right
  fromMat3 right newUp back

/-- A decomposed transform: translation, rotation, scale.  Models both
`bevy Transform` and (per the spec's World Transform data model) a
`GlobalTransform` in its `compute_transform()`-decomposed form. -/
structure Transform where
  translation : Vec3
  rotation : Quat
  scale : Vec3

/-- `GlobalTransform`, modelled as its decomposed transform. -/
abbrev GlobalTransform := Transform

/-- `GlobalTransform::compute_transform`, the identity in this decomposed
model. -/
def computeTransform (g : GlobalTransform) : Transform := g

/-- `Transform::looking_at(target, up)`: replaces the rotation with
`look_to(target - translation, up)`. -/
noncomputable def lookingAt (t : Transform) (target up : Vec3) : Transform :=
  { t with rotation := lookToRotation (target - t.translation) up }

/-- The world up axis of a transform (its rotation applied to `Vec3::Y`).
Models `GlobalTransform::up()` for the decomposed form; the spec's
Up-Direction Resolver reads "the rotation's up axis". -/
def upAxis (g : GlobalTransform) : Vec3 := Quat.rotate g.rotation ⟨0, 1, 0⟩

/-- `calculate_local_rotation_to_target` from `src/lib.rs`:
look at the target in world space, optionally flip 180° about the
(normalised) up direction, then convert into the parent's frame with
`parent.rotation.inverse() * rotation` (glam's unit inverse, the
conjugate). -/
noncomputable def calculate_local_rotation_to_target
    (rotator_gt target_gt : GlobalTransform) (parent_gt : Option GlobalTransform)
    (updir : Vec3) (flip_vertical : Bool) : Quat :=
  let target_c := computeTransform target_gt
  let parent_c := parent_gt.map computeTransform
  let rotation :=
    (lookingAt (computeTransform rotator_gt) target_c.translation updir).rotation
  let rotation :=
    if flip_vertical then
      Quat.mul (Quat.fromAxisAngle (Vec3.normalize updir) Real.pi) rotation
    else rotation
  match parent_c with
  | some p => Quat.mul (Quat.inverse p.rotation) rotation
  | none => rotation

/-- The world-space rotation built inside `calculate_local_rotation_to_target`
before the parent conversion: the look-at rotation with the optional
vertical flip applied. -/
noncomputable def worldLookRotation (rotator_gt target_gt : GlobalTransform)
    (updir : Vec3) (flip_vertical : Bool) : Quat :=
  let rotation :=
    (lookingAt (computeTransform rotator_gt)
      (computeTransform target_gt).translation updir).rotation
  if flip_vertical then
    Quat.mul (Quat.fromAxisAngle (Vec3.normalize updir) Real.pi) rotation
  else rotation

/-- The `UpDirection` component enum from `src/lib.rs`. -/
inductive UpDirection where
  | Target : UpDirection
  | Parent : UpDirection
  | Dir : Vec3 → UpDirection

/-- The `RotateTo` component from `src/lib.rs`; `entity` is the target's
entity id. -/
structure RotateTo where
  entity : ℕ
  updir : UpDirection
  flip_vertical : Bool

/-- One entity of the model world: id, local `Transform`, cached
`GlobalTransform`, optional parent link, and the optional `RotateTo`
directive.  Entities without the directive are not matched by the
`rotators` query. -/
structure EntityData where
  id : ℕ
  transform : Transform
  global_transform : GlobalTransform
  parent : Option ℕ
  rotate_to : Option RotateTo

/-- The `Query<&GlobalTransform>` lookup over the world: the global
transform of the entity with a given id, if present. -/
noncomputable def lookupGT (es : List EntityData) (i : ℕ) : Option GlobalTransform :=
  (es.find? (fun e => e.id = i)).map (fun e => e.global_transform)

/-- The `EPSILON` constant of `rotate_towards`. -/
noncomputable def rotateEpsilon : ℝ := 1e-6

/-- The `parent_gt` binding of the `rotate_towards` loop body: the
`GlobalTransform` of the parent link, `None` when there is no parent or
when the lookup fails (`.ok()`). -/
noncomputable def parentGTOf (gts : ℕ → Option GlobalTransform) (e : EntityData) :
    Option GlobalTransform :=
  match e.parent with
  | some pe => gts pe
  | none => none

/-- The `updir` resolution of the `rotate_towards` loop body: `Target`
takes the target's up axis, `Dir` the stored direction, `Parent` the
parent's up axis with fallback `Dir3::Y` when no parent transform is
available. -/
noncomputable def updirOf (rt : RotateTo) (target_gt : GlobalTransform)
    (parent_gt : Option GlobalTransform) : Vec3 :=
  match rt.updir with
  | UpDirection.Target => upAxis target_gt
  | UpDirection.Dir dir => dir
  | UpDirection.Parent =>
    match parent_gt with
    | some pgt => upAxis pgt
    | none => ⟨0, 1, 0⟩

/-- The `rotation` binding of the `rotate_towards` loop body for an entity
whose target resolved to `target_gt`. -/
noncomputable def newRotationOf (gts : ℕ → Option GlobalTransform) (e : EntityData)
    (rt : RotateTo) (target_gt : GlobalTransform) : Quat :=
  calculate_local_rotation_to_target e.global_transform target_gt
    (parentGTOf gts e) (updirOf rt target_gt (parentGTOf gts e)) rt.flip_vertical

/-- The loop body of the `rotate_towards` system for one queried entity.
Returns the updated entity, whether its `Transform` was written
(bevy change detection), and the list of error-logged missing target ids.

* a missing target logs the target id and leaves the entity untouched
  (`continue`);
* a parent link whose `GlobalTransform` lookup fails yields
  `parent_gt = None` (`.ok()`);
* the new rotation is written only when it is not within `EPSILON`
  (component-wise) of the stored one. -/
noncomputable def processEntity (gts : ℕ → Option GlobalTransform) (e : EntityData) :
    EntityData × Bool × List ℕ :=
  match e.rotate_to with
  | none => (e, false, [])
  | some rt =>
    match gts rt.entity with
    | none => (e, false, [rt.entity])
    | some target_gt =>
      let rotation := newRotationOf gts e rt target_gt
      if ¬ Quat.absDiffEq rotation e.transform.rotation rotateEpsilon then
        ({ e with transform := { e.transform with rotation := rotation } }, true, [])
      else
        (e, false, [])

/-- The `rotate_towards` system over the whole world: each entity is
processed independently with the read-only `GlobalTransform` query derived
from the input world. -/
noncomputable def rotate_towards (es : List EntityData) : List (EntityData × Bool × List ℕ) :=
  es.map (processEntity (lookupGT es))

/-- The `update_global_transforms` system: for every entity that has
`RotateTo` and whose `Transform` changed this tick, recompute its global
transform with `TransformHelper::compute_global_transform` and overwrite
the cache.  `.expect(...)` panics on failure, modelled as `none` for the
whole run. -/
noncomputable def update_global_transforms (recompute : ℕ → Option GlobalTransform) :
    List (EntityData × Bool) → Option (List EntityData)
  | [] => some []
  | (e, changed) :: rest =>
    if e.rotate_to.isSome ∧ changed then
      match recompute e.id with
      | none => none
      | some gt =>
        (update_global_transforms recompute rest).map
          (fun rs => { e with global_transform := gt } :: rs)
    else
      (update_global_transforms recompute rest).map (fun rs => e :: rs)

section MatrixQuatCore

/-!  Polynomial identities behind `fromMat3`.

Throughout, `(a, b, c)`, `(d, e, f)`, `(g, h, i)` are the three columns of
an orthonormal right-handed matrix: the first two columns are unit and
orthogonal and the third is their cross product.  The six `coreP` lemmas
are the identities needed to evaluate the quaternion produced by Day's
extraction; the `Keys` lemmas transport them to the four branches by
instantiating the core at signed permutations of the columns. -/

variable {a b c d e f g h i : ℝ}

theorem coreP1 (hA : a ^ 2 + b ^ 2 + c ^ 2 = 1) (hB : d ^ 2 + e ^ 2 + f ^ 2 = 1)
    (hC : a * d + b * e + c * f = 0) (hG : g = b * f - c * e)
    (hH : h = c * d - a * f) (hI : i = a * e - b * d) :
    (b + d) * (f - h) = (1 + a - e - i) * (g - c) := by
  subst hG hH hI
  linear_combination (-(d * f)) * hA + (-(c * (1 + a))) * hB + (c * d + (1 + a) * f) * hC

theorem coreP2 (hA : a ^ 2 + b ^ 2 + c ^ 2 = 1) (hB : d ^ 2 + e ^ 2 + f ^ 2 = 1)
    (hC : a * d + b * e + c * f = 0) (hG : g = b * f - c * e)
    (hH : h = c * d - a * f) (hI : i = a * e - b * d) :
    (b + d) * (c + g) = (1 + a - e - i) * (f + h) := by
  subst hG hH hI
  linear_combination ((1 - e) * f) * hA + (-(b * c)) * hB + (c * e + b * f - c) * hC

theorem coreP5 (hA : a ^ 2 + b ^ 2 + c ^ 2 = 1) (hB : d ^ 2 + e ^ 2 + f ^ 2 = 1)
    (hC : a * d + b * e + c * f = 0) (hG : g = b * f - c * e)
    (hH : h = c * d - a * f) (hI : i = a * e - b * d) :
    (c + g) * (f - h) = (1 + a - e - i) * (b - d) := by
  subst hG hH hI
  linear_combination (-(d * (1 - e))) * hA + (b * (1 + a)) * hB +
    ((1 + a) * (1 - e) - b * d) * hC

theorem coreP3 (hA : a ^ 2 + b ^ 2 + c ^ 2 = 1) (hB : d ^ 2 + e ^ 2 + f ^ 2 = 1)
    (hC : a * d + b * e + c * f = 0) (hG : g = b * f - c * e)
    (hH : h = c * d - a * f) (hI : i = a * e - b * d) :
    (f - h) ^ 2 + (c + g) ^ 2 - (1 + a - e - i) ^ 2 - (b + d) ^ 2 =
      4 * (1 + a - e - i) * i := by
  subst hG hH hI
  linear_combination (d ^ 2 + (1 - e) ^ 2 - f ^ 2) * hA +
    ((1 + a) ^ 2 + b ^ 2 - c ^ 2 + (a ^ 2 + b ^ 2 + c ^ 2 - 1)) * hB +
    (2 * (b * (1 - e) - d * (1 + a)) - (a * d + b * e - c * f)) * hC

theorem coreP4 (hA : a ^ 2 + b ^ 2 + c ^ 2 = 1) (hB : d ^ 2 + e ^ 2 + f ^ 2 = 1)
    (hC : a * d + b * e + c * f = 0) (hG : g = b * f - c * e)
    (hH : h = c * d - a * f) (hI : i = a * e - b * d) :
    (1 + a - e - i) ^ 2 + (b + d) ^ 2 + (c + g) ^ 2 + (f - h) ^ 2 =
      4 * (1 + a - e - i) := by
  subst hG hH hI
  linear_combination (2 * (1 - e)) * hA + (b ^ 2 + c ^ 2 + (1 + a) ^ 2) * hB +
    (2 * b * (1 - e) - 2 * d * (1 + a) + a * d + b * e - c * f) * hC

theorem coreP6 (hA : a ^ 2 + b ^ 2 + c ^ 2 = 1) (hB : d ^ 2 + e ^ 2 + f ^ 2 = 1)
    (hC : a * d + b * e + c * f = 0) (hG : g = b * f - c * e)
    (hH : h = c * d - a * f) (hI : i = a * e - b * d) :
    (1 + a - e - i) ^ 2 + (f - h) ^ 2 - (b + d) ^ 2 - (c + g) ^ 2 =
      4 * (1 + a - e - i) * a := by
  subst hG hH hI
  linear_combination (2 * (d ^ 2 + e - 1)) * hA + ((1 + a) ^ 2 - b ^ 2 - c ^ 2) * hB +
    (-(2 * d * (1 + a)) - 2 * b * (1 - e) - a * d - b * e + c * f) * hC

theorem normThirdColumn (hA : a ^ 2 + b ^ 2 + c ^ 2 = 1)
    (hB : d ^ 2 + e ^ 2 + f ^ 2 = 1) (hC : a * d + b * e + c * f = 0)
    (hG : g = b * f - c * e) (hH : h = c * d - a * f) (hI : i = a * e - b * d) :
    g ^ 2 + h ^ 2 + i ^ 2 = 1 := by
  subst hG hH hI
  linear_combination (d ^ 2 + e ^ 2 + f ^ 2) * hA + hB - (a * d + b * e + c * f) * hC

theorem xKeys (hA : a ^ 2 + b ^ 2 + c ^ 2 = 1) (hB : d ^ 2 + e ^ 2 + f ^ 2 = 1)
    (hC : a * d + b * e + c * f = 0) (hG : g = b * f - c * e)
    (hH : h = c * d - a * f) (hI : i = a * e - b * d) :
    (b + d) * (f - h) = (1 + a - e - i) * (g - c) ∧
    (b + d) * (c + g) = (1 + a - e - i) * (f + h) ∧
    (f - h) ^ 2 + (c + g) ^ 2 - (1 + a - e - i) ^ 2 - (b + d) ^ 2 =
      4 * (1 + a - e - i) * i ∧
    (1 + a - e - i) ^ 2 + (b + d) ^ 2 + (c + g) ^ 2 + (f - h) ^ 2 =
      4 * (1 + a - e - i) :=
  ⟨coreP1 hA hB hC hG hH hI, coreP2 hA hB hC hG hH hI,
   coreP3 hA hB hC hG hH hI, coreP4 hA hB hC hG hH hI⟩

theorem yKeys (hA : a ^ 2 + b ^ 2 + c ^ 2 = 1) (hB : d ^ 2 + e ^ 2 + f ^ 2 = 1)
    (hC : a * d + b * e + c * f = 0) (hG : g = b * f - c * e)
    (hH : h = c * d - a * f) (hI : i = a * e - b * d) :
    (b + d) * (f + h) = (1 - a + e - i) * (g + c) ∧
    (b + d) * (g - c) = (1 - a + e - i) * (f - h) ∧
    (g - c) ^ 2 + (f + h) ^ 2 - (b + d) ^ 2 - (1 - a + e - i) ^ 2 =
      4 * (1 - a + e - i) * i ∧
    (1 - a + e - i) ^ 2 + (b + d) ^ 2 + (f + h) ^ 2 + (g - c) ^ 2 =
      4 * (1 - a + e - i) := by
  have hA' : e ^ 2 + (-d) ^ 2 + f ^ 2 = 1 := by linear_combination hB
  have hB' : (-b) ^ 2 + a ^ 2 + (-c) ^ 2 = 1 := by linear_combination hA
  have hC' : e * (-b) + (-d) * a + f * (-c) = 0 := by linear_combination -hC
  have hG' : h = (-d) * (-c) - f * a := by linear_combination hH
  have hH' : -g = f * (-b) - e * (-c) := by linear_combination -hG
  have hI' : i = e * a - (-d) * (-b) := by linear_combination hI
  have t1 := coreP1 hA' hB' hC' hG' hH' hI'
  have t2 := coreP2 hA' hB' hC' hG' hH' hI'
  have t3 := coreP3 hA' hB' hC' hG' hH' hI'
  have t4 := coreP4 hA' hB' hC' hG' hH' hI'
  exact ⟨by linear_combination -t2, by linear_combination -t1,
         by linear_combination t3, by linear_combination t4⟩

theorem zKeys (hA : a ^ 2 + b ^ 2 + c ^ 2 = 1) (hB : d ^ 2 + e ^ 2 + f ^ 2 = 1)
    (hC : a * d + b * e + c * f = 0) (hG : g = b * f - c * e)
    (hH : h = c * d - a * f) (hI : i = a * e - b * d) :
    (f + h) * (b - d) = (1 - a - e + i) * (g - c) ∧
    (c + g) * (b - d) = (1 - a - e + i) * (f - h) ∧
    (1 - a - e + i) ^ 2 + (b - d) ^ 2 - (f + h) ^ 2 - (c + g) ^ 2 =
      4 * (1 - a - e + i) * i ∧
    (1 - a - e + i) ^ 2 + (c + g) ^ 2 + (f + h) ^ 2 + (b - d) ^ 2 =
      4 * (1 - a - e + i) := by
  have hA' : i ^ 2 + (-h) ^ 2 + (-g) ^ 2 = 1 := by
    have := normThirdColumn hA hB hC hG hH hI
    linear_combination this
  have hB' : (-f) ^ 2 + e ^ 2 + d ^ 2 = 1 := by linear_combination hB
  have hC' : i * (-f) + (-h) * e + (-g) * d = 0 := by
    subst hG hH hI; ring
  have hG' : -c = (-h) * d - (-g) * e := by
    subst hG hH; linear_combination c * hB - f * hC
  have hH' : b = (-g) * (-f) - i * d := by
    subst hG hI; linear_combination (-b) * hB + e * hC
  have hI' : a = i * e - (-h) * (-f) := by
    subst hH hI; linear_combination (-a) * hB + d * hC
  have t1 := coreP1 hA' hB' hC' hG' hH' hI'
  have t5 := coreP5 hA' hB' hC' hG' hH' hI'
  have t6 := coreP6 hA' hB' hC' hG' hH' hI'
  have t4 := coreP4 hA' hB' hC' hG' hH' hI'
  exact ⟨by linear_combination t1, by linear_combination t5,
         by linear_combination t6, by linear_combination t4⟩

theorem wKeys (hA : a ^ 2 + b ^ 2 + c ^ 2 = 1) (hB : d ^ 2 + e ^ 2 + f ^ 2 = 1)
    (hC : a * d + b * e + c * f = 0) (hG : g = b * f - c * e)
    (hH : h = c * d - a * f) (hI : i = a * e - b * d) :
    (f - h) * (b - d) = (1 + a + e + i) * (g + c) ∧
    (g - c) * (b - d) = (1 + a + e + i) * (f + h) ∧
    (1 + a + e + i) ^ 2 + (b - d) ^ 2 - (f - h) ^ 2 - (g - c) ^ 2 =
      4 * (1 + a + e + i) * i ∧
    (1 + a + e + i) ^ 2 + (f - h) ^ 2 + (g - c) ^ 2 + (b - d) ^ 2 =
      4 * (1 + a + e + i) := by
  have hA' : a ^ 2 + b ^ 2 + c ^ 2 = 1 := hA
  have hB' : (-d) ^ 2 + (-e) ^ 2 + (-f) ^ 2 = 1 := by linear_combination hB
  have hC' : a * (-d) + b * (-e) + c * (-f) = 0 := by linear_combination -hC
  have hG' : -g = b * (-f) - c * (-e) := by linear_combination -hG
  have hH' : -h = c * (-d) - a * (-f) := by linear_combination -hH
  have hI' : -i = a * (-e) - b * (-d) := by linear_combination -hI
  have t1 := coreP1 hA' hB' hC' hG' hH' hI'
  have t2 := coreP2 hA' hB' hC' hG' hH' hI'
  have t3 := coreP3 hA' hB' hC' hG' hH' hI'
  have t4 := coreP4 hA' hB' hC' hG' hH' hI'
  exact ⟨by linear_combination -t1, by linear_combination -t2,
         by linear_combination -t3, by linear_combination t4⟩

set_option maxHeartbeats 1600000 in
/-- Day's extraction evaluated on an orthonormal right-handed basis given by
scalar components: the resulting quaternion maps `Z` to the third column and
is unit length. -/
theorem fromMat3_spec_scalar (a b c d e f g h i : ℝ)
    (hA : a ^ 2 + b ^ 2 + c ^ 2 = 1) (hB : d ^ 2 + e ^ 2 + f ^ 2 = 1)
    (hC : a * d + b * e + c * f = 0) (hG : g = b * f - c * e)
    (hH : h = c * d - a * f) (hI : i = a * e - b * d) :
    Quat.rotate (fromMat3 ⟨a, b, c⟩ ⟨d, e, f⟩ ⟨g, h, i⟩) ⟨0, 0, 1⟩ = ⟨g, h, i⟩ ∧
    Quat.normSq (fromMat3 ⟨a, b, c⟩ ⟨d, e, f⟩ ⟨g, h, i⟩) = 1 := by
  unfold fromMat3
  split_ifs with h1 h2 h3
  · -- x branch: i ≤ 0, e - a ≤ 0
    simp only at h1 h2 ⊢
    set s : ℝ := (1 - i) - (e - a) with hs_def
    have hs1 : 1 ≤ s := by simp only [hs_def]; linarith
    set t : ℝ := Real.sqrt s with ht_def
    have ht2 : t ^ 2 = s := Real.sq_sqrt (by linarith)
    have ht0 : t ≠ 0 := by
      have := Real.sqrt_pos.mpr (show 0 < s by linarith)
      rw [ht_def]; exact ne_of_gt this
    obtain ⟨k1, k2, k3, k4⟩ := xKeys hA hB hC hG hH hI
    constructor
    · rw [Quat.rotate_unitZ]
      refine Vec3.ext ?_ ?_ ?_ <;> simp only
      · field_simp
        linear_combination 2 * k1 - 4 * g * ht2
      · field_simp
        linear_combination 2 * k2 - 4 * h * ht2
      · field_simp
        linear_combination k3 - 4 * i * ht2
    · simp only [Quat.normSq]
      field_simp
      linear_combination k4 - 4 * ht2
  · -- y branch: i ≤ 0, e - a > 0
    simp only at h1 h2 ⊢
    set s : ℝ := (1 - i) + (e - a) with hs_def
    have hs1 : 1 ≤ s := by simp only [hs_def]; linarith
    set t : ℝ := Real.sqrt s with ht_def
    have ht2 : t ^ 2 = s := Real.sq_sqrt (by linarith)
    have ht0 : t ≠ 0 := by
      have := Real.sqrt_pos.mpr (show 0 < s by linarith)
      rw [ht_def]; exact ne_of_gt this
    obtain ⟨k1, k2, k3, k4⟩ := yKeys hA hB hC hG hH hI
    constructor
    · rw [Quat.rotate_unitZ]
      refine Vec3.ext ?_ ?_ ?_ <;> simp only
      · field_simp
        linear_combination 2 * k1 - 4 * g * ht2
      · field_simp
        linear_combination (-2) * k2 - 4 * h * ht2
      · field_simp
        linear_combination k3 - 4 * i * ht2
    · simp only [Quat.normSq]
      field_simp
      linear_combination k4 - 4 * ht2
  · -- z branch: i > 0, e + a ≤ 0
    simp only at h1 h3 ⊢
    set s : ℝ := (1 + i) - (e + a) with hs_def
    have hs1 : 1 ≤ s := by simp only [hs_def]; linarith
    set t : ℝ := Real.sqrt s with ht_def
    have ht2 : t ^ 2 = s := Real.sq_sqrt (by linarith)
    have ht0 : t ≠ 0 := by
      have := Real.sqrt_pos.mpr (show 0 < s by linarith)
      rw [ht_def]; exact ne_of_gt this
    obtain ⟨k1, k2, k3, k4⟩ := zKeys hA hB hC hG hH hI
    constructor
    · rw [Quat.rotate_unitZ]
      refine Vec3.ext ?_ ?_ ?_ <;> simp only
      · field_simp
        linear_combination 2 * k1 - 4 * g * ht2
      · field_simp
        linear_combination (-2) * k2 - 4 * h * ht2
      · field_simp
        linear_combination k3 - 4 * i * ht2
    · simp only [Quat.normSq]
      field_simp
      linear_combination k4 - 4 * ht2
  · -- w branch: i > 0, e + a > 0
    simp only at h1 h3 ⊢
    set s : ℝ := (1 + i) + (e + a) with hs_def
    have hs1 : 1 ≤ s := by simp only [hs_def]; linarith
    set t : ℝ := Real.sqrt s with ht_def
    have ht2 : t ^ 2 = s := Real.sq_sqrt (by linarith)
    have ht0 : t ≠ 0 := by
      have := Real.sqrt_pos.mpr (show 0 < s by linarith)
      rw [ht_def]; exact ne_of_gt this
    obtain ⟨k1, k2, k3, k4⟩ := wKeys hA hB hC hG hH hI
    constructor
    · rw [Quat.rotate_unitZ]
      refine Vec3.ext ?_ ?_ ?_ <;> simp only
      · field_simp
        linear_combination 2 * k1 - 4 * g * ht2
      · field_simp
        linear_combination 2 * k2 - 4 * h * ht2
      · field_simp
        linear_combination k3 - 4 * i * ht2
    · simp only [Quat.normSq]
      field_simp
      linear_combination k4 - 4 * ht2

end MatrixQuatCore

namespace Vec3

theorem dot_comm (v w : Vec3) : dot v w = dot w v := by
  simp [dot]; ring

theorem dot_neg_right (v w : Vec3) : dot v (-w) = -(dot v w) := by
  simp [dot]; ring

theorem dot_cross_right (u v : Vec3) : dot (cross u v) v = 0 := by
  simp [dot, cross]; ring

theorem dot_cross_left (u v : Vec3) : dot (cross u v) u = 0 := by
  simp [dot, cross]; ring

theorem cross_cross_back (x y : Vec3) :
    cross x (cross y x) = dot x x • y - dot x y • x := by
  ext <;> (simp [dot, cross]; ring)

theorem dot_cross_self (u v : Vec3) :
    dot (cross u v) (cross u v) = dot u u * dot v v - dot u v * dot u v := by
  simp [dot, cross]; ring

theorem dot_smul_left (k : ℝ) (v w : Vec3) : dot (k • v) w = k * dot v w := by
  simp [dot]; ring

theorem cross_smul_smul (k m : ℝ) (v w : Vec3) :
    cross (k • v) (m • w) = (k * m) • cross v w := by
  ext <;> (simp [cross]; ring)

theorem cross_neg_right (v w : Vec3) : cross v (-w) = -(cross v w) := by
  ext <;> (simp [cross]; ring)

theorem cross_zero_left (v : Vec3) : cross 0 v = 0 := by
  ext <;> simp [cross]

theorem one_smul_vec (v : Vec3) : (1 : ℝ) • v = v := by
  ext <;> simp

theorem sub_zero_smul (v w : Vec3) : (1 : ℝ) • v - (0 : ℝ) • w = v := by
  ext <;> simp

theorem eq_or_eq_neg_of_cross_eq_zero {u v : Vec3} (hu : dot u u = 1)
    (hv : dot v v = 1) (hc : cross u v = 0) : u = v ∨ u = -v := by
  have hL : dot u v * dot u v = 1 := by
    have h0 := dot_cross_self u v
    rw [hc] at h0
    have hz0 : dot (0 : Vec3) 0 = 0 := by simp [dot]
    rw [hz0, hu, hv] at h0
    linarith
  have : (dot u v - 1) * (dot u v + 1) = 0 := by nlinarith [hL]
  rcases mul_eq_zero.mp this with h1 | h1
  · left
    have hd : dot u v = 1 := by linarith
    have hz : dot (u - v) (u - v) = 0 := by
      simp [dot] at hu hv hd ⊢
      nlinarith [hu, hv, hd]
    have := (dot_eq_zero_iff (u - v)).mp hz
    have hx := congrArg Vec3.x this
    have hy := congrArg Vec3.y this
    have hz' := congrArg Vec3.z this
    simp at hx hy hz'
    ext <;> linarith [hx, hy, hz']
  · right
    have hd : dot u v = -1 := by linarith
    have hz : dot (u + v) (u + v) = 0 := by
      simp [dot] at hu hv hd ⊢
      nlinarith [hu, hv, hd]
    have := (dot_eq_zero_iff (u + v)).mp hz
    have hx := congrArg Vec3.x this
    have hy := congrArg Vec3.y this
    have hz' := congrArg Vec3.z this
    simp at hx hy hz'
    ext <;> simp <;> linarith [hx, hy, hz']

end Vec3

theorem fromMat3_basis (r u bv : Vec3) (hr : Vec3.dot r r = 1)
    (hu : Vec3.dot u u = 1) (hru : Vec3.dot r u = 0)
    (hb : bv = Vec3.cross r u) :
    Quat.rotate (fromMat3 r u bv) ⟨0, 0, 1⟩ = bv ∧
    Quat.normSq (fromMat3 r u bv) = 1 := by
  obtain ⟨a, b, c⟩ := r
  obtain ⟨d, e, f⟩ := u
  obtain ⟨g, h, i⟩ := bv
  simp only [Vec3.cross, Vec3.mk.injEq] at hb
  obtain ⟨hG, hH, hI⟩ := hb
  simp only [Vec3.dot] at hr hu hru
  exact fromMat3_spec_scalar a b c d e f g h i (by linear_combination hr)
    (by linear_combination hu) (by linear_combination hru) hG hH hI

/-- The orthonormal-basis core of `look_to`: for a unit `back` and a unit
`right` orthogonal to it, the extracted quaternion maps `Z` to `back` and is
unit length. -/
theorem lookTo_core (back r : Vec3) (hb : Vec3.dot back back = 1)
    (hr : Vec3.dot r r = 1) (hrb : Vec3.dot r back = 0) :
    Quat.rotate (fromMat3 r (Vec3.cross back r) back) ⟨0, 0, 1⟩ = back ∧
    Quat.normSq (fromMat3 r (Vec3.cross back r) back) = 1 := by
  refine fromMat3_basis r (Vec3.cross back r) back hr ?_ ?_ ?_
  · rw [Vec3.dot_cross_self]
    rw [show Vec3.dot back r = Vec3.dot r back from Vec3.dot_comm back r, hrb, hb, hr]
    ring
  · rw [Vec3.dot_comm]
    exact Vec3.dot_cross_right back r
  · rw [Vec3.cross_cross_back, hr, hrb]
    ext <;> simp

/-- Pixar's construction applied to a unit vector yields a unit vector
orthogonal to it. -/
theorem anyOrthonormalVector_spec (v : Vec3) (hv : Vec3.dot v v = 1) :
    Vec3.dot (anyOrthonormalVector v) (anyOrthonormalVector v) = 1 ∧
    Vec3.dot (anyOrthonormalVector v) v = 0 := by
  obtain ⟨x, y, z⟩ := v
  simp only [Vec3.dot] at hv
  unfold anyOrthonormalVector
  split_ifs with hz
  · -- z < 0, sign = -1
    simp only [Vec3.dot]
    have hD : (-1 : ℝ) + z ≠ 0 := by intro h; nlinarith
    constructor
    · field_simp
      linear_combination (y * y) * hv
    · field_simp
      linear_combination (y * (1 - z)) * hv
  · -- 0 ≤ z, sign = 1
    simp only [Vec3.dot]
    have hD : (1 : ℝ) + z ≠ 0 := by intro h; nlinarith
    constructor
    · field_simp
      linear_combination (y * y) * hv
    · field_simp
      linear_combination (-(y * (1 + z))) * hv

theorem dot_neg_neg_vec (v w : Vec3) : Vec3.dot (-v) (-w) = Vec3.dot v w := by
  simp only [Vec3.dot, Vec3.neg_x, Vec3.neg_y, Vec3.neg_z]; ring

/-- The `right` column built by `look_to` is unit length and orthogonal to
`back`, in both the `try_normalize` and the `any_orthonormal_vector`
fallback branches. -/
theorem right_orthonormal (upDir back r : Vec3) (hu : Vec3.dot upDir upDir = 1)
    (hb : Vec3.dot back back = 1)
    (hr : r = if Vec3.cross upDir back = 0 then anyOrthonormalVector upDir
          else Vec3.normalize (Vec3.cross upDir back)) :
    Vec3.dot r r = 1 ∧ Vec3.dot r back = 0 := by
  by_cases hc : Vec3.cross upDir back = 0
  · rw [hr, if_pos hc]
    obtain ⟨haov1, haov2⟩ := anyOrthonormalVector_spec upDir hu
    refine ⟨haov1, ?_⟩
    rcases Vec3.eq_or_eq_neg_of_cross_eq_zero hu hb hc with he | he
    · rw [← he]; exact haov2
    · have hbe : back = -upDir := by
        rw [he]; ext <;> simp
      rw [hbe, Vec3.dot_neg_right, haov2]; ring
  · rw [hr, if_neg hc]
    refine ⟨Vec3.dot_normalize hc, ?_⟩
    show Vec3.dot ((1 / Vec3.length (Vec3.cross upDir back)) • Vec3.cross upDir back) back = 0
    rw [Vec3.dot_smul_left, Vec3.dot_cross_right]
    ring

/-- `look_to` always produces a unit quaternion: its three matrix columns
are orthonormal in every branch, including the degenerate fallbacks. -/
theorem lookTo_unit (dir up : Vec3) : Quat.normSq (lookToRotation dir up) = 1 := by
  simp only [lookToRotation]
  have hbunit : ∀ back : Vec3,
      back = (if dir = 0 then (⟨0, 0, 1⟩ : Vec3) else -(Vec3.normalize dir)) →
      Vec3.dot back back = 1 := by
    intro back hbk
    by_cases hd : dir = 0
    · rw [hbk, if_pos hd]; simp [Vec3.dot]
    · rw [hbk, if_neg hd, dot_neg_neg_vec]
      exact Vec3.dot_normalize hd
  have huunit : ∀ upDir : Vec3,
      upDir = (if up = 0 then (⟨0, 1, 0⟩ : Vec3) else Vec3.normalize up) →
      Vec3.dot upDir upDir = 1 := by
    intro upDir hud
    by_cases hu : up = 0
    · rw [hud, if_pos hu]; simp [Vec3.dot]
    · rw [hud, if_neg hu]
      exact Vec3.dot_normalize hu
  obtain ⟨hr1, hr2⟩ := right_orthonormal
    (if up = 0 then (⟨0, 1, 0⟩ : Vec3) else Vec3.normalize up)
    (if dir = 0 then (⟨0, 0, 1⟩ : Vec3) else -(Vec3.normalize dir))
    _ (huunit _ rfl) (hbunit _ rfl) rfl
  exact (lookTo_core _ _ (hbunit _ rfl) hr1 hr2).2

/-- In the non-degenerate case (`direction` nonzero and `up` not collinear
with it), the rotation computed by `look_to` maps the forward axis
`-Z` to the normalised direction. -/
theorem lookTo_forward (dir up : Vec3) (hdir : dir ≠ 0)
    (hcross : Vec3.cross up dir ≠ 0) :
    Quat.rotate (lookToRotation dir up) ⟨0, 0, -1⟩ = Vec3.normalize dir := by
  have hup : up ≠ 0 := by
    intro h
    apply hcross
    rw [h]
    exact Vec3.cross_zero_left dir
  simp only [lookToRotation]
  rw [if_neg hdir, if_neg hup]
  have hlu := Vec3.length_pos_of_ne_zero hup
  have hld := Vec3.length_pos_of_ne_zero hdir
  have hcb0 : Vec3.cross (Vec3.normalize up) (-(Vec3.normalize dir)) =
      (-(1 / Vec3.length up * (1 / Vec3.length dir))) • Vec3.cross up dir := by
    show Vec3.cross ((1 / Vec3.length up) • up) (-((1 / Vec3.length dir) • dir)) = _
    rw [show -((1 / Vec3.length dir) • dir) = (-(1 / Vec3.length dir)) • dir from
      by ext <;> (simp only [Vec3.neg_x, Vec3.neg_y, Vec3.neg_z, Vec3.smul_x, Vec3.smul_y,
        Vec3.smul_z]; ring)]
    rw [Vec3.cross_smul_smul]
    congr 1
    ring
  have hcb : Vec3.cross (Vec3.normalize up) (-(Vec3.normalize dir)) ≠ 0 := by
    rw [hcb0]
    intro hz
    rcases (Vec3.smul_eq_zero_iff _ _).mp hz with h' | h'
    · have hx : 1 / Vec3.length up * (1 / Vec3.length dir) = 0 := by linarith
      have hpos : (0 : ℝ) < 1 / Vec3.length up * (1 / Vec3.length dir) := by positivity
      rw [hx] at hpos
      exact lt_irrefl 0 hpos
    · exact hcross h'
  rw [if_neg hcb]
  have hbunit : Vec3.dot (-(Vec3.normalize dir)) (-(Vec3.normalize dir)) = 1 := by
    rw [dot_neg_neg_vec]
    exact Vec3.dot_normalize hdir
  have hrunit : Vec3.dot (Vec3.normalize (Vec3.cross (Vec3.normalize up) (-(Vec3.normalize dir))))
      (Vec3.normalize (Vec3.cross (Vec3.normalize up) (-(Vec3.normalize dir)))) = 1 :=
    Vec3.dot_normalize hcb
  have hrb : Vec3.dot (Vec3.normalize (Vec3.cross (Vec3.normalize up) (-(Vec3.normalize dir))))
      (-(Vec3.normalize dir)) = 0 := by
    show Vec3.dot ((1 / Vec3.length (Vec3.cross (Vec3.normalize up) (-(Vec3.normalize dir)))) •
      Vec3.cross (Vec3.normalize up) (-(Vec3.normalize dir))) (-(Vec3.normalize dir)) = 0
    rw [Vec3.dot_smul_left, Vec3.dot_cross_right]
    ring
  have hmain := lookTo_core (-(Vec3.normalize dir))
    (Vec3.normalize (Vec3.cross (Vec3.normalize up) (-(Vec3.normalize dir))))
    hbunit hrunit hrb
  rw [show (⟨0, 0, -1⟩ : Vec3) = -(⟨0, 0, 1⟩ : Vec3) from by ext <;> simp]
  rw [Quat.rotate_neg_vec, hmain.1]
  ext <;> simp

theorem vec_zero_def : (0 : Vec3) = ⟨0, 0, 0⟩ := rfl

theorem vec_ne_zero_of_z {v : Vec3} (h : v.z ≠ 0) : v ≠ 0 := by
  intro h0
  exact h (by rw [h0]; rfl)

theorem vec_ne_zero_of_y {v : Vec3} (h : v.y ≠ 0) : v ≠ 0 := by
  intro h0
  exact h (by rw [h0]; rfl)

theorem vec_ne_zero_of_x {v : Vec3} (h : v.x ≠ 0) : v ≠ 0 := by
  intro h0
  exact h (by rw [h0]; rfl)

theorem length_example_5 : Vec3.length ⟨0, 0, -5⟩ = 5 := by
  unfold Vec3.length Vec3.dot
  rw [show ((0:ℝ) * 0 + 0 * 0 + (-5) * (-5) : ℝ) = 5 ^ 2 by norm_num]
  exact Real.sqrt_sq (by norm_num)

theorem normalize_example_5 : Vec3.normalize ⟨0, 0, -5⟩ = ⟨0, 0, -1⟩ := by
  unfold Vec3.normalize
  rw [length_example_5]
  ext <;> norm_num

theorem length_unitY : Vec3.length ⟨0, 1, 0⟩ = 1 := by
  unfold Vec3.length Vec3.dot
  rw [show ((0:ℝ) * 0 + 1 * 1 + 0 * 0 : ℝ) = 1 by norm_num]
  exact Real.sqrt_one

theorem normalize_unitY : Vec3.normalize ⟨0, 1, 0⟩ = ⟨0, 1, 0⟩ := by
  unfold Vec3.normalize
  rw [length_unitY]
  ext <;> norm_num

theorem length_unitX : Vec3.length ⟨1, 0, 0⟩ = 1 := by
  unfold Vec3.length Vec3.dot
  rw [show ((1:ℝ) * 1 + 0 * 0 + 0 * 0 : ℝ) = 1 by norm_num]
  exact Real.sqrt_one

theorem normalize_unitX : Vec3.normalize ⟨1, 0, 0⟩ = ⟨1, 0, 0⟩ := by
  unfold Vec3.normalize
  rw [length_unitX]
  ext <;> norm_num

theorem fromMat3_id : fromMat3 ⟨1, 0, 0⟩ ⟨0, 1, 0⟩ ⟨0, 0, 1⟩ = ⟨0, 0, 0, 1⟩ := by
  unfold fromMat3
  rw [if_neg (by norm_num), if_neg (by norm_num)]
  have h4 : Real.sqrt 4 = 2 := by
    rw [show (4 : ℝ) = 2 ^ 2 by norm_num]
    exact Real.sqrt_sq (by norm_num)
  ext <;> norm_num [h4]

/-- Concrete evaluation of the look-at construction: looking from the origin
at `(0, 0, -5)` with up `(0, 1, 0)` yields the identity quaternion. -/
theorem lookTo_example : lookToRotation ⟨0, 0, -5⟩ ⟨0, 1, 0⟩ = ⟨0, 0, 0, 1⟩ := by
  have hd : (⟨0, 0, -5⟩ : Vec3) ≠ 0 := vec_ne_zero_of_z (by norm_num)
  have hu : (⟨0, 1, 0⟩ : Vec3) ≠ 0 := vec_ne_zero_of_y (by norm_num)
  simp only [lookToRotation]
  rw [if_neg hd, if_neg hu, normalize_example_5, normalize_unitY]
  rw [show -(⟨0, 0, -1⟩ : Vec3) = ⟨0, 0, 1⟩ from by ext <;> norm_num]
  rw [show Vec3.cross ⟨0, 1, 0⟩ ⟨0, 0, 1⟩ = ⟨1, 0, 0⟩ from by
    ext <;> norm_num [Vec3.cross]]
  rw [if_neg (vec_ne_zero_of_x (v := ⟨1, 0, 0⟩) (by norm_num))]
  rw [normalize_unitX]
  rw [show Vec3.cross ⟨0, 0, 1⟩ ⟨1, 0, 0⟩ = ⟨0, 1, 0⟩ from by
    ext <;> norm_num [Vec3.cross]]
  exact fromMat3_id

theorem quat_mul_id_left (q : Quat) : Quat.mul ⟨0, 0, 0, 1⟩ q = q := by
  ext <;> simp [Quat.mul]

theorem quat_mul_negid_left (q : Quat) : Quat.mul ⟨0, 0, 0, -1⟩ q = Quat.neg q := by
  ext <;> simp [Quat.mul, Quat.neg]

theorem normSq_conjugate (q : Quat) : Quat.normSq (Quat.conjugate q) = Quat.normSq q := by
  simp only [Quat.normSq, Quat.conjugate]; ring

theorem mul_inverse_cancel_left (p q : Quat) (hp : Quat.normSq p = 1) :
    Quat.mul p (Quat.mul (Quat.inverse p) q) = q := by
  rw [← Quat.mul_assoc]
  unfold Quat.inverse
  rw [Quat.mul_conjugate_self, hp]
  exact quat_mul_id_left q

/-- The world rotation obtained by composing an optional parent world
rotation with a local rotation (the standard parent-chain composition). -/
def worldOf (parent : Option GlobalTransform) (q : Quat) : Quat :=
  match parent with
  | some p => Quat.mul p.rotation q
  | none => q

theorem exactInverse_of_unit (q : Quat) (hq : Quat.normSq q = 1) :
    Quat.exactInverse q = Quat.inverse q := by
  unfold Quat.exactInverse Quat.inverse Quat.conjugate
  rw [hq]
  ext <;> simp

theorem calculate_none_eq_worldLook (r t : GlobalTransform) (u : Vec3) (fl : Bool) :
    calculate_local_rotation_to_target r t none u fl = worldLookRotation r t u fl := rfl

theorem calculate_some_eq (r t p : GlobalTransform) (u : Vec3) (fl : Bool) :
    calculate_local_rotation_to_target r t (some p) u fl =
      Quat.mul (Quat.inverse p.rotation) (worldLookRotation r t u fl) := rfl

theorem worldLook_false (r t : GlobalTransform) (u : Vec3) :
    worldLookRotation r t u false =
      lookToRotation (t.translation - r.translation) u := rfl

theorem worldLook_true (r t : GlobalTransform) (u : Vec3) :
    worldLookRotation r t u true =
      Quat.mul (Quat.fromAxisAngle (Vec3.normalize u) Real.pi)
        (lookToRotation (t.translation - r.translation) u) := rfl

theorem fromAxisAngle_pi (n : Vec3) :
    Quat.fromAxisAngle n Real.pi = ⟨n.x, n.y, n.z, 0⟩ := by
  unfold Quat.fromAxisAngle
  ext <;> simp [Real.sin_pi_div_two, Real.cos_pi_div_two]

theorem normSq_flipQuat (up : Vec3) (hup : up ≠ 0) :
    Quat.normSq (Quat.fromAxisAngle (Vec3.normalize up) Real.pi) = 1 := by
  rw [fromAxisAngle_pi]
  have := Vec3.dot_normalize hup
  simp only [Vec3.dot] at this
  simp only [Quat.normSq]
  linear_combination this

theorem normSq_worldLook (r t : GlobalTransform) (u : Vec3) (fl : Bool)
    (hu : fl = true → u ≠ 0) :
    Quat.normSq (worldLookRotation r t u fl) = 1 := by
  cases fl
  · rw [worldLook_false]
    exact lookTo_unit _ _
  · rw [worldLook_true, Quat.normSq_mul, normSq_flipQuat u (hu rfl), lookTo_unit]
    norm_num

/-- Claim C2: with a parent world transform supplied, the returned local
rotation is `inverse(parent.rotation) * worldRotation` (the exact quaternion
inverse, for a unit parent rotation); with no parent, the returned rotation
is exactly the world-space (possibly flipped) look-at rotation. -/
theorem C2_parent_frame_conversion (rotator target p : GlobalTransform)
    (updir : Vec3) (fl : Bool) (hp : Quat.normSq p.rotation = 1) :
    calculate_local_rotation_to_target rotator target (some p) updir fl =
      Quat.mul (Quat.exactInverse p.rotation) (worldLookRotation rotator target updir fl) ∧
    calculate_local_rotation_to_target rotator target none updir fl =
      worldLookRotation rotator target updir fl := by
  refine ⟨?_, rfl⟩
  rw [exactInverse_of_unit p.rotation hp]
  rfl

/-- Witness for C2 at the identity parent rotation. -/
theorem C2_parent_frame_conversion_witness :
    Quat.normSq (⟨0, 0, 0, 1⟩ : Quat) = 1 ∧
    calculate_local_rotation_to_target ⟨⟨0, 0, 0⟩, ⟨0, 0, 0, 1⟩, ⟨1, 1, 1⟩⟩
        ⟨⟨0, 0, -5⟩, ⟨0, 0, 0, 1⟩, ⟨1, 1, 1⟩⟩
        (some ⟨⟨0, 0, 0⟩, ⟨0, 0, 0, 1⟩, ⟨1, 1, 1⟩⟩) ⟨0, 1, 0⟩ false =
      Quat.mul (Quat.exactInverse (⟨0, 0, 0, 1⟩ : Quat))
        (worldLookRotation ⟨⟨0, 0, 0⟩, ⟨0, 0, 0, 1⟩, ⟨1, 1, 1⟩⟩
          ⟨⟨0, 0, -5⟩, ⟨0, 0, 0, 1⟩, ⟨1, 1, 1⟩⟩ ⟨0, 1, 0⟩ false) :=
  ⟨by simp [Quat.normSq],
   (C2_parent_frame_conversion ⟨⟨0, 0, 0⟩, ⟨0, 0, 0, 1⟩, ⟨1, 1, 1⟩⟩
      ⟨⟨0, 0, -5⟩, ⟨0, 0, 0, 1⟩, ⟨1, 1, 1⟩⟩ ⟨⟨0, 0, 0⟩, ⟨0, 0, 0, 1⟩, ⟨1, 1, 1⟩⟩
      ⟨0, 1, 0⟩ false (by simp [Quat.normSq])).1⟩

/-- Claim C4, counterexample: composing the flip quaternion
`from_axis_angle(up, π)` with itself gives minus the identity quaternion,
not the identity, so applying the flip twice to a look-at rotation does not
return the original quaternion within the 1e-6 tolerance. -/
theorem C4_counterexample :
    Quat.mul (Quat.fromAxisAngle (Vec3.normalize ⟨0, 1, 0⟩) Real.pi)
        (Quat.fromAxisAngle (Vec3.normalize ⟨0, 1, 0⟩) Real.pi) = ⟨0, 0, 0, -1⟩ ∧
    ¬ Quat.absDiffEq
        (Quat.mul (Quat.fromAxisAngle (Vec3.normalize ⟨0, 1, 0⟩) Real.pi)
          (Quat.mul (Quat.fromAxisAngle (Vec3.normalize ⟨0, 1, 0⟩) Real.pi) ⟨0, 0, 0, 1⟩))
        ⟨0, 0, 0, 1⟩ rotateEpsilon := by
  rw [normalize_unitY, fromAxisAngle_pi]
  constructor
  · ext <;> norm_num [Quat.mul]
  · intro hc
    have := hc.2.2.2
    norm_num [Quat.mul, rotateEpsilon] at this

/-- Claim C4, amended: composing the flip quaternion with itself yields the
negated quaternion `-1`, so flipping twice returns the negation of the
original rotation quaternion — a quaternion that is not component-wise equal
to the original but represents the same rotation (it acts identically on
every vector). -/
theorem C4_flip_twice_neg (up : Vec3) (r : Quat) (v : Vec3) (hup : up ≠ 0) :
    Quat.mul (Quat.fromAxisAngle (Vec3.normalize up) Real.pi)
        (Quat.mul (Quat.fromAxisAngle (Vec3.normalize up) Real.pi) r) = Quat.neg r ∧
    Quat.rotate
        (Quat.mul (Quat.fromAxisAngle (Vec3.normalize up) Real.pi)
          (Quat.mul (Quat.fromAxisAngle (Vec3.normalize up) Real.pi) r)) v =
      Quat.rotate r v := by
  have hu : (Vec3.normalize up).x * (Vec3.normalize up).x +
      (Vec3.normalize up).y * (Vec3.normalize up).y +
      (Vec3.normalize up).z * (Vec3.normalize up).z = 1 := by
    have := Vec3.dot_normalize hup
    simpa only [Vec3.dot] using this
  have hff : Quat.mul (Quat.fromAxisAngle (Vec3.normalize up) Real.pi)
      (Quat.fromAxisAngle (Vec3.normalize up) Real.pi) = ⟨0, 0, 0, -1⟩ := by
    rw [fromAxisAngle_pi]
    refine Quat.ext ?_ ?_ ?_ ?_
    · simp [Quat.mul]; ring
    · simp [Quat.mul]; ring
    · simp [Quat.mul]; ring
    · simp [Quat.mul]; linear_combination -hu
  have h1 : Quat.mul (Quat.fromAxisAngle (Vec3.normalize up) Real.pi)
      (Quat.mul (Quat.fromAxisAngle (Vec3.normalize up) Real.pi) r) = Quat.neg r := by
    rw [← Quat.mul_assoc, hff, quat_mul_negid_left]
  exact ⟨h1, by rw [h1, Quat.rotate_neg_quat]⟩

/-- Witness for the amended C4 at concrete inputs. -/
theorem C4_flip_twice_neg_witness :
    (⟨0, 1, 0⟩ : Vec3) ≠ 0 ∧
    Quat.mul (Quat.fromAxisAngle (Vec3.normalize ⟨0, 1, 0⟩) Real.pi)
        (Quat.mul (Quat.fromAxisAngle (Vec3.normalize ⟨0, 1, 0⟩) Real.pi) ⟨1, 0, 0, 0⟩) =
      Quat.neg ⟨1, 0, 0, 0⟩ ∧
    Quat.rotate
        (Quat.mul (Quat.fromAxisAngle (Vec3.normalize ⟨0, 1, 0⟩) Real.pi)
          (Quat.mul (Quat.fromAxisAngle (Vec3.normalize ⟨0, 1, 0⟩) Real.pi) ⟨1, 0, 0, 0⟩))
        ⟨0, 0, 1⟩ =
      Quat.rotate ⟨1, 0, 0, 0⟩ ⟨0, 0, 1⟩ := by
  have h0 : (⟨0, 1, 0⟩ : Vec3) ≠ 0 := vec_ne_zero_of_y (by norm_num)
  obtain ⟨h1, h2⟩ := C4_flip_twice_neg ⟨0, 1, 0⟩ ⟨1, 0, 0, 0⟩ ⟨0, 0, 1⟩ h0
  exact ⟨h0, h1, h2⟩

/-- Claim C10: when rotator and target share the same world position the
look-at direction is degenerate, yet `calculate_local_rotation_to_target`
still returns a unit-length quaternion (in the exact-real model this is the
no-NaN/finiteness guarantee), for any up direction, flip flag and (unit)
parent rotation; determinism holds because the embedding is a pure
function of its inputs. -/
theorem C10_degenerate_unit (rotator target : GlobalTransform)
    (parent : Option GlobalTransform) (updir : Vec3) (fl : Bool)
    (hpos : target.translation = rotator.translation) (hup : updir ≠ 0)
    (hparent : ∀ p ∈ parent, Quat.normSq p.rotation = 1) :
    Quat.normSq (calculate_local_rotation_to_target rotator target parent updir fl) = 1 := by
  have hw : Quat.normSq (worldLookRotation rotator target updir fl) = 1 :=
    normSq_worldLook rotator target updir fl (fun _ => hup)
  cases parent with
  | none => rw [calculate_none_eq_worldLook]; exact hw
  | some p =>
    rw [calculate_some_eq, Quat.normSq_mul]
    unfold Quat.inverse
    rw [normSq_conjugate, hparent p rfl, hw]
    norm_num

/-- Witness for C10 at coincident positions. -/
theorem C10_degenerate_unit_witness :
    (⟨⟨1, 2, 3⟩, ⟨0, 0, 0, 1⟩, ⟨1, 1, 1⟩⟩ : GlobalTransform).translation =
      (⟨⟨1, 2, 3⟩, ⟨1, 0, 0, 0⟩, ⟨1, 1, 1⟩⟩ : GlobalTransform).translation ∧
    (⟨0, 1, 0⟩ : Vec3) ≠ 0 ∧
    Quat.normSq (calculate_local_rotation_to_target
      ⟨⟨1, 2, 3⟩, ⟨1, 0, 0, 0⟩, ⟨1, 1, 1⟩⟩ ⟨⟨1, 2, 3⟩, ⟨0, 0, 0, 1⟩, ⟨1, 1, 1⟩⟩
      none ⟨0, 1, 0⟩ true) = 1 := by
  have h0 : (⟨0, 1, 0⟩ : Vec3) ≠ 0 := vec_ne_zero_of_y (by norm_num)
  refine ⟨rfl, h0, ?_⟩
  exact C10_degenerate_unit ⟨⟨1, 2, 3⟩, ⟨1, 0, 0, 0⟩, ⟨1, 1, 1⟩⟩
    ⟨⟨1, 2, 3⟩, ⟨0, 0, 0, 1⟩, ⟨1, 1, 1⟩⟩ none ⟨0, 1, 0⟩ true rfl h0
    (by intro p hp; cases hp)

/-- Claim C1: for every rotator, target, up direction and optional (unit
rotation) parent with distinct rotator/target world positions and up not
collinear with the rotator-to-target vector, composing the returned local
rotation with the parent's world rotation (or taking it as-is without a
parent) gives a world rotation whose forward axis `-Z` maps exactly to the
normalised vector from rotator to target — in particular it is parallel to
`target.position - rotator.position`. -/
theorem C1_forward_points_at_target (rotator target : GlobalTransform)
    (parent : Option GlobalTransform) (updir : Vec3)
    (hpos : target.translation - rotator.translation ≠ 0)
    (hcol : Vec3.cross updir (target.translation - rotator.translation) ≠ 0)
    (hparent : ∀ p ∈ parent, Quat.normSq p.rotation = 1) :
    Quat.rotate
        (worldOf parent
          (calculate_local_rotation_to_target rotator target parent updir false))
        ⟨0, 0, -1⟩ =
      Vec3.normalize (target.translation - rotator.translation) := by
  have hforward := lookTo_forward (target.translation - rotator.translation) updir hpos hcol
  cases parent with
  | none =>
    rw [worldOf, calculate_none_eq_worldLook, worldLook_false]
    exact hforward
  | some p =>
    rw [worldOf, calculate_some_eq, mul_inverse_cancel_left _ _ (hparent p rfl),
      worldLook_false]
    exact hforward

/-- Witness for C1: rotator at the origin, target at `(0,0,-5)`, up `Y`,
no parent. -/
theorem C1_forward_points_at_target_witness :
    ((⟨⟨0, 0, -5⟩, ⟨0, 0, 0, 1⟩, ⟨1, 1, 1⟩⟩ : GlobalTransform).translation -
        (⟨⟨0, 0, 0⟩, ⟨0, 0, 0, 1⟩, ⟨1, 1, 1⟩⟩ : GlobalTransform).translation ≠ 0) ∧
    Vec3.cross ⟨0, 1, 0⟩
        ((⟨⟨0, 0, -5⟩, ⟨0, 0, 0, 1⟩, ⟨1, 1, 1⟩⟩ : GlobalTransform).translation -
          (⟨⟨0, 0, 0⟩, ⟨0, 0, 0, 1⟩, ⟨1, 1, 1⟩⟩ : GlobalTransform).translation) ≠ 0 ∧
    Quat.rotate
        (worldOf none
          (calculate_local_rotation_to_target ⟨⟨0, 0, 0⟩, ⟨0, 0, 0, 1⟩, ⟨1, 1, 1⟩⟩
            ⟨⟨0, 0, -5⟩, ⟨0, 0, 0, 1⟩, ⟨1, 1, 1⟩⟩ none ⟨0, 1, 0⟩ false))
        ⟨0, 0, -1⟩ =
      Vec3.normalize
        ((⟨⟨0, 0, -5⟩, ⟨0, 0, 0, 1⟩, ⟨1, 1, 1⟩⟩ : GlobalTransform).translation -
          (⟨⟨0, 0, 0⟩, ⟨0, 0, 0, 1⟩, ⟨1, 1, 1⟩⟩ : GlobalTransform).translation) := by
  have h1 : ((⟨⟨0, 0, -5⟩, ⟨0, 0, 0, 1⟩, ⟨1, 1, 1⟩⟩ : GlobalTransform).translation -
      (⟨⟨0, 0, 0⟩, ⟨0, 0, 0, 1⟩, ⟨1, 1, 1⟩⟩ : GlobalTransform).translation ≠ 0) :=
    vec_ne_zero_of_z (by norm_num)
  have h2 : Vec3.cross ⟨0, 1, 0⟩
      ((⟨⟨0, 0, -5⟩, ⟨0, 0, 0, 1⟩, ⟨1, 1, 1⟩⟩ : GlobalTransform).translation -
        (⟨⟨0, 0, 0⟩, ⟨0, 0, 0, 1⟩, ⟨1, 1, 1⟩⟩ : GlobalTransform).translation) ≠ 0 :=
    vec_ne_zero_of_x (by norm_num [Vec3.cross])
  refine ⟨h1, h2, ?_⟩
  exact C1_forward_points_at_target ⟨⟨0, 0, 0⟩, ⟨0, 0, 0, 1⟩, ⟨1, 1, 1⟩⟩
    ⟨⟨0, 0, -5⟩, ⟨0, 0, 0, 1⟩, ⟨1, 1, 1⟩⟩ none ⟨0, 1, 0⟩ h1 h2
    (by intro p hp; cases hp)

theorem calc_example_noflip :
    calculate_local_rotation_to_target ⟨⟨0, 0, 0⟩, ⟨0, 0, 0, 1⟩, ⟨1, 1, 1⟩⟩
      ⟨⟨0, 0, -5⟩, ⟨0, 0, 0, 1⟩, ⟨1, 1, 1⟩⟩ none ⟨0, 1, 0⟩ false = ⟨0, 0, 0, 1⟩ := by
  rw [calculate_none_eq_worldLook, worldLook_false]
  rw [show ((⟨⟨0, 0, -5⟩, ⟨0, 0, 0, 1⟩, ⟨1, 1, 1⟩⟩ : GlobalTransform).translation -
      (⟨⟨0, 0, 0⟩, ⟨0, 0, 0, 1⟩, ⟨1, 1, 1⟩⟩ : GlobalTransform).translation) =
      (⟨0, 0, -5⟩ : Vec3) from by ext <;> norm_num]
  exact lookTo_example

theorem calc_example_flip :
    calculate_local_rotation_to_target ⟨⟨0, 0, 0⟩, ⟨0, 0, 0, 1⟩, ⟨1, 1, 1⟩⟩
      ⟨⟨0, 0, -5⟩, ⟨0, 0, 0, 1⟩, ⟨1, 1, 1⟩⟩ none ⟨0, 1, 0⟩ true = ⟨0, 1, 0, 0⟩ := by
  rw [calculate_none_eq_worldLook, worldLook_true]
  rw [show ((⟨⟨0, 0, -5⟩, ⟨0, 0, 0, 1⟩, ⟨1, 1, 1⟩⟩ : GlobalTransform).translation -
      (⟨⟨0, 0, 0⟩, ⟨0, 0, 0, 1⟩, ⟨1, 1, 1⟩⟩ : GlobalTransform).translation) =
      (⟨0, 0, -5⟩ : Vec3) from by ext <;> norm_num]
  rw [lookTo_example, normalize_unitY, fromAxisAngle_pi]
  ext <;> norm_num [Quat.mul]

/-- Claim C3: for a rotator at the origin with identity transform and no
parent, target at `(0,0,-5)` and up `(0,1,0)`: with `flip_vertical = false`
the returned rotation maps the forward axis `-Z` to `(0,0,-1)` and up `Y`
to `(0,1,0)`; with `flip_vertical = true` the forward axis maps to
`(0,0,1)` and up still to `(0,1,0)` (all exactly, hence within any
tolerance). -/
theorem C3_origin_scenario :
    Quat.rotate (calculate_local_rotation_to_target ⟨⟨0, 0, 0⟩, ⟨0, 0, 0, 1⟩, ⟨1, 1, 1⟩⟩
        ⟨⟨0, 0, -5⟩, ⟨0, 0, 0, 1⟩, ⟨1, 1, 1⟩⟩ none ⟨0, 1, 0⟩ false) ⟨0, 0, -1⟩ =
      ⟨0, 0, -1⟩ ∧
    Quat.rotate (calculate_local_rotation_to_target ⟨⟨0, 0, 0⟩, ⟨0, 0, 0, 1⟩, ⟨1, 1, 1⟩⟩
        ⟨⟨0, 0, -5⟩, ⟨0, 0, 0, 1⟩, ⟨1, 1, 1⟩⟩ none ⟨0, 1, 0⟩ false) ⟨0, 1, 0⟩ =
      ⟨0, 1, 0⟩ ∧
    Quat.rotate (calculate_local_rotation_to_target ⟨⟨0, 0, 0⟩, ⟨0, 0, 0, 1⟩, ⟨1, 1, 1⟩⟩
        ⟨⟨0, 0, -5⟩, ⟨0, 0, 0, 1⟩, ⟨1, 1, 1⟩⟩ none ⟨0, 1, 0⟩ true) ⟨0, 0, -1⟩ =
      ⟨0, 0, 1⟩ ∧
    Quat.rotate (calculate_local_rotation_to_target ⟨⟨0, 0, 0⟩, ⟨0, 0, 0, 1⟩, ⟨1, 1, 1⟩⟩
        ⟨⟨0, 0, -5⟩, ⟨0, 0, 0, 1⟩, ⟨1, 1, 1⟩⟩ none ⟨0, 1, 0⟩ true) ⟨0, 1, 0⟩ =
      ⟨0, 1, 0⟩ := by
  rw [calc_example_noflip, calc_example_flip]
  refine ⟨?_, ?_, ?_, ?_⟩ <;> (ext <;> norm_num [Quat.rotate, Quat.mul, Quat.conjugate])

theorem processEntity_eq_no_directive (gts : ℕ → Option GlobalTransform) (e : EntityData)
    (hrt : e.rotate_to = none) : processEntity gts e = (e, false, []) := by
  obtain ⟨eid, etr, egt, epar, erto⟩ := e
  have hrt0 : erto = none := hrt
  subst hrt0
  rfl

theorem processEntity_eq_target_missing (gts : ℕ → Option GlobalTransform) (e : EntityData)
    (rt : RotateTo) (hrt : e.rotate_to = some rt) (hmiss : gts rt.entity = none) :
    processEntity gts e = (e, false, [rt.entity]) := by
  obtain ⟨eid, etr, egt, epar, erto⟩ := e
  have hrt0 : erto = some rt := hrt
  subst hrt0
  simp only [processEntity]
  rw [hmiss]

theorem processEntity_eq_target_found (gts : ℕ → Option GlobalTransform) (e : EntityData)
    (rt : RotateTo) (target_gt : GlobalTransform) (hrt : e.rotate_to = some rt)
    (htgt : gts rt.entity = some target_gt) :
    processEntity gts e =
      if ¬ Quat.absDiffEq (newRotationOf gts e rt target_gt) e.transform.rotation
          rotateEpsilon then
        ({ e with transform := { e.transform with
            rotation := newRotationOf gts e rt target_gt } }, true, [])
      else (e, false, []) := by
  obtain ⟨eid, etr, egt, epar, erto⟩ := e
  have hrt0 : erto = some rt := hrt
  subst hrt0
  simp only [processEntity]
  rw [htgt]

/-- Claim C5: for a rotator with no parent link, the `Parent` up-policy
behaves exactly like the fixed-direction policy with `(0,1,0)`: the
per-frame step computes the same local transform (hence the same local
rotation), the same changed flag and the same error log in both cases,
whatever the target and the other directive fields. -/
theorem C5_parentup_eq_fixedY (gts : ℕ → Option GlobalTransform) (e : EntityData)
    (rt : RotateTo) (hpar : e.parent = none) :
    (processEntity gts
        { e with rotate_to := some { rt with updir := UpDirection.Parent } }).1.transform =
      (processEntity gts
        { e with rotate_to := some { rt with updir := UpDirection.Dir ⟨0, 1, 0⟩ } }).1.transform ∧
    (processEntity gts
        { e with rotate_to := some { rt with updir := UpDirection.Parent } }).2 =
      (processEntity gts
        { e with rotate_to := some { rt with updir := UpDirection.Dir ⟨0, 1, 0⟩ } }).2 := by
  unfold processEntity newRotationOf updirOf parentGTOf
  simp only [hpar]
  cases gts rt.entity with
  | none => exact ⟨rfl, rfl⟩
  | some tgt =>
    simp only
    split_ifs with h
    · exact ⟨rfl, rfl⟩
    · exact ⟨rfl, rfl⟩

/-- Witness for C5 at a concrete parent-less rotator. -/
theorem C5_parentup_eq_fixedY_witness :
    (⟨1, ⟨⟨0, 0, 0⟩, ⟨0, 0, 0, 1⟩, ⟨1, 1, 1⟩⟩, ⟨⟨0, 0, 0⟩, ⟨0, 0, 0, 1⟩, ⟨1, 1, 1⟩⟩,
        none, none⟩ : EntityData).parent = none ∧
    (processEntity (fun _ => none)
        { (⟨1, ⟨⟨0, 0, 0⟩, ⟨0, 0, 0, 1⟩, ⟨1, 1, 1⟩⟩, ⟨⟨0, 0, 0⟩, ⟨0, 0, 0, 1⟩, ⟨1, 1, 1⟩⟩,
            none, none⟩ : EntityData) with
          rotate_to := some ⟨2, UpDirection.Parent, false⟩ }).1.transform =
      (processEntity (fun _ => none)
        { (⟨1, ⟨⟨0, 0, 0⟩, ⟨0, 0, 0, 1⟩, ⟨1, 1, 1⟩⟩, ⟨⟨0, 0, 0⟩, ⟨0, 0, 0, 1⟩, ⟨1, 1, 1⟩⟩,
            none, none⟩ : EntityData) with
          rotate_to := some ⟨2, UpDirection.Dir ⟨0, 1, 0⟩, false⟩ }).1.transform :=
  ⟨rfl, (C5_parentup_eq_fixedY (fun _ => none)
    ⟨1, ⟨⟨0, 0, 0⟩, ⟨0, 0, 0, 1⟩, ⟨1, 1, 1⟩⟩, ⟨⟨0, 0, 0⟩, ⟨0, 0, 0, 1⟩, ⟨1, 1, 1⟩⟩, none, none⟩
    ⟨2, UpDirection.Target, false⟩ rfl).1⟩

/-- Claim C6: the per-frame step compares the newly computed rotation with
the stored one component-wise against epsilon `1e-6`; within tolerance no
write happens (the entity is not marked changed), otherwise exactly the
rotation field is overwritten; translation and scale are never mutated, and
entities without the directive are never touched. -/
theorem C6_epsilon_guarded_write (gts : ℕ → Option GlobalTransform) (e : EntityData)
    (rt : RotateTo) (target_gt : GlobalTransform) (hrt : e.rotate_to = some rt)
    (htgt : gts rt.entity = some target_gt) :
    (Quat.absDiffEq (newRotationOf gts e rt target_gt) e.transform.rotation rotateEpsilon →
      processEntity gts e = (e, false, [])) ∧
    (¬ Quat.absDiffEq (newRotationOf gts e rt target_gt) e.transform.rotation rotateEpsilon →
      processEntity gts e =
        ({ e with transform := { e.transform with
            rotation := newRotationOf gts e rt target_gt } }, true, [])) ∧
    (processEntity gts e).1.transform.translation = e.transform.translation ∧
    (processEntity gts e).1.transform.scale = e.transform.scale ∧
    (∀ e' : EntityData, e'.rotate_to = none → processEntity gts e' = (e', false, [])) := by
  have hbody := processEntity_eq_target_found gts e rt target_gt hrt htgt
  refine ⟨?_, ?_, ?_, ?_, ?_⟩
  · intro hclose
    rw [hbody, if_neg (by simpa using hclose)]
  · intro hfar
    rw [hbody, if_pos hfar]
  · rw [hbody]
    split_ifs <;> rfl
  · rw [hbody]
    split_ifs <;> rfl
  · intro e' he'
    exact processEntity_eq_no_directive gts e' he'

/-- Witness for C6: rotator already looking at its target, so the write is
skipped. -/
theorem C6_epsilon_guarded_write_witness :
    (⟨1, ⟨⟨0, 0, 0⟩, ⟨0, 0, 0, 1⟩, ⟨1, 1, 1⟩⟩, ⟨⟨0, 0, 0⟩, ⟨0, 0, 0, 1⟩, ⟨1, 1, 1⟩⟩, none,
        some ⟨2, UpDirection.Dir ⟨0, 1, 0⟩, false⟩⟩ : EntityData).rotate_to =
      some ⟨2, UpDirection.Dir ⟨0, 1, 0⟩, false⟩ ∧
    (fun i => if i = 2 then
        some (⟨⟨0, 0, -5⟩, ⟨0, 0, 0, 1⟩, ⟨1, 1, 1⟩⟩ : GlobalTransform) else none) 2 =
      some (⟨⟨0, 0, -5⟩, ⟨0, 0, 0, 1⟩, ⟨1, 1, 1⟩⟩ : GlobalTransform) ∧
    (processEntity
        (fun i => if i = 2 then
          some (⟨⟨0, 0, -5⟩, ⟨0, 0, 0, 1⟩, ⟨1, 1, 1⟩⟩ : GlobalTransform) else none)
        ⟨1, ⟨⟨0, 0, 0⟩, ⟨0, 0, 0, 1⟩, ⟨1, 1, 1⟩⟩, ⟨⟨0, 0, 0⟩, ⟨0, 0, 0, 1⟩, ⟨1, 1, 1⟩⟩, none,
          some ⟨2, UpDirection.Dir ⟨0, 1, 0⟩, false⟩⟩).1.transform.translation =
      (⟨⟨0, 0, 0⟩, ⟨0, 0, 0, 1⟩, ⟨1, 1, 1⟩⟩ : Transform).translation := by
  refine ⟨rfl, by norm_num, ?_⟩
  exact (C6_epsilon_guarded_write
    (fun i => if i = 2 then
      some (⟨⟨0, 0, -5⟩, ⟨0, 0, 0, 1⟩, ⟨1, 1, 1⟩⟩ : GlobalTransform) else none)
    ⟨1, ⟨⟨0, 0, 0⟩, ⟨0, 0, 0, 1⟩, ⟨1, 1, 1⟩⟩, ⟨⟨0, 0, 0⟩, ⟨0, 0, 0, 1⟩, ⟨1, 1, 1⟩⟩, none,
      some ⟨2, UpDirection.Dir ⟨0, 1, 0⟩, false⟩⟩
    ⟨2, UpDirection.Dir ⟨0, 1, 0⟩, false⟩ ⟨⟨0, 0, -5⟩, ⟨0, 0, 0, 1⟩, ⟨1, 1, 1⟩⟩
    rfl (by norm_num)).2.2.1

/-- Claim C7: when an entity's target handle does not resolve to a world
transform, the per-frame update leaves that entity untouched for the tick,
logs an error naming the missing handle, and every entity of the world is
still processed by the same independent per-entity step. -/
theorem C7_missing_target (es : List EntityData) (j : ℕ) (hj : j < es.length)
    (rt : RotateTo) (hrt : (es.get ⟨j, hj⟩).rotate_to = some rt)
    (hmiss : lookupGT es rt.entity = none) :
    processEntity (lookupGT es) (es.get ⟨j, hj⟩) = (es.get ⟨j, hj⟩, false, [rt.entity]) ∧
    ∀ (k : ℕ) (hk : k < es.length),
      (rotate_towards es).get ⟨k, by simpa [rotate_towards] using hk⟩ =
        processEntity (lookupGT es) (es.get ⟨k, hk⟩) := by
  constructor
  · exact processEntity_eq_target_missing (lookupGT es) (es.get ⟨j, hj⟩) rt hrt hmiss
  · intro k hk
    simp [rotate_towards]

/-- Witness for C7: a single rotator whose target id `99` is absent. -/
theorem C7_missing_target_witness :
    ([⟨1, ⟨⟨0, 0, 0⟩, ⟨0, 0, 0, 1⟩, ⟨1, 1, 1⟩⟩, ⟨⟨0, 0, 0⟩, ⟨0, 0, 0, 1⟩, ⟨1, 1, 1⟩⟩, none,
        some ⟨99, UpDirection.Dir ⟨0, 1, 0⟩, false⟩⟩].get
      ⟨0, by norm_num⟩ : EntityData).rotate_to =
      some ⟨99, UpDirection.Dir ⟨0, 1, 0⟩, false⟩ ∧
    lookupGT [⟨1, ⟨⟨0, 0, 0⟩, ⟨0, 0, 0, 1⟩, ⟨1, 1, 1⟩⟩, ⟨⟨0, 0, 0⟩, ⟨0, 0, 0, 1⟩, ⟨1, 1, 1⟩⟩,
        none, some ⟨99, UpDirection.Dir ⟨0, 1, 0⟩, false⟩⟩] 99 = none ∧
    processEntity
        (lookupGT [⟨1, ⟨⟨0, 0, 0⟩, ⟨0, 0, 0, 1⟩, ⟨1, 1, 1⟩⟩,
          ⟨⟨0, 0, 0⟩, ⟨0, 0, 0, 1⟩, ⟨1, 1, 1⟩⟩, none,
          some ⟨99, UpDirection.Dir ⟨0, 1, 0⟩, false⟩⟩])
        ([⟨1, ⟨⟨0, 0, 0⟩, ⟨0, 0, 0, 1⟩, ⟨1, 1, 1⟩⟩, ⟨⟨0, 0, 0⟩, ⟨0, 0, 0, 1⟩, ⟨1, 1, 1⟩⟩,
          none, some ⟨99, UpDirection.Dir ⟨0, 1, 0⟩, false⟩⟩].get ⟨0, by norm_num⟩) =
      ([⟨1, ⟨⟨0, 0, 0⟩, ⟨0, 0, 0, 1⟩, ⟨1, 1, 1⟩⟩, ⟨⟨0, 0, 0⟩, ⟨0, 0, 0, 1⟩, ⟨1, 1, 1⟩⟩,
          none, some ⟨99, UpDirection.Dir ⟨0, 1, 0⟩, false⟩⟩].get ⟨0, by norm_num⟩,
        false, [99]) := by
  have hmiss : lookupGT [(⟨1, ⟨⟨0, 0, 0⟩, ⟨0, 0, 0, 1⟩, ⟨1, 1, 1⟩⟩,
      ⟨⟨0, 0, 0⟩, ⟨0, 0, 0, 1⟩, ⟨1, 1, 1⟩⟩, none,
      some ⟨99, UpDirection.Dir ⟨0, 1, 0⟩, false⟩⟩ : EntityData)] 99 = none := by
    simp [lookupGT, List.find?]
  refine ⟨rfl, hmiss, ?_⟩
  exact (C7_missing_target
    [⟨1, ⟨⟨0, 0, 0⟩, ⟨0, 0, 0, 1⟩, ⟨1, 1, 1⟩⟩, ⟨⟨0, 0, 0⟩, ⟨0, 0, 0, 1⟩, ⟨1, 1, 1⟩⟩, none,
      some ⟨99, UpDirection.Dir ⟨0, 1, 0⟩, false⟩⟩]
    0 (by norm_num) ⟨99, UpDirection.Dir ⟨0, 1, 0⟩, false⟩ rfl hmiss).1

/-- The C8 counterexample world: a rotator whose parent link `99` resolves
to no entity, already rotated away from its target. -/
def c8Rotator : EntityData :=
  ⟨1, ⟨⟨0, 0, 0⟩, ⟨1, 0, 0, 0⟩, ⟨1, 1, 1⟩⟩, ⟨⟨0, 0, 0⟩, ⟨0, 0, 0, 1⟩, ⟨1, 1, 1⟩⟩,
   some 99, some ⟨2, UpDirection.Dir ⟨0, 1, 0⟩, false⟩⟩

/-- The C8 counterexample target entity. -/
def c8Target : EntityData :=
  ⟨2, ⟨⟨0, 0, -5⟩, ⟨0, 0, 0, 1⟩, ⟨1, 1, 1⟩⟩, ⟨⟨0, 0, -5⟩, ⟨0, 0, 0, 1⟩, ⟨1, 1, 1⟩⟩,
   none, none⟩

theorem c8_lookup_target : lookupGT [c8Rotator, c8Target] 2 =
    some ⟨⟨0, 0, -5⟩, ⟨0, 0, 0, 1⟩, ⟨1, 1, 1⟩⟩ := by
  simp [lookupGT, List.find?, c8Rotator, c8Target]

theorem c8_lookup_parent : lookupGT [c8Rotator, c8Target] 99 = none := by
  simp [lookupGT, List.find?, c8Rotator, c8Target]

theorem c8_new_rotation :
    newRotationOf (lookupGT [c8Rotator, c8Target]) c8Rotator
      ⟨2, UpDirection.Dir ⟨0, 1, 0⟩, false⟩ ⟨⟨0, 0, -5⟩, ⟨0, 0, 0, 1⟩, ⟨1, 1, 1⟩⟩ =
      ⟨0, 0, 0, 1⟩ := by
  unfold newRotationOf parentGTOf updirOf
  simp only [c8Rotator, c8_lookup_parent]
  exact calc_example_noflip

/-- Claim C8, counterexample: for a rotator whose parent link exists but
whose parent's world transform cannot be resolved, the per-frame update
still computes a rotation (as if there were no parent) and writes it, so
the local rotation is NOT left at its prior value for the tick. -/
theorem C8_counterexample :
    c8Rotator.parent = some 99 ∧
    lookupGT [c8Rotator, c8Target] 99 = none ∧
    (processEntity (lookupGT [c8Rotator, c8Target]) c8Rotator).1.transform.rotation =
      ⟨0, 0, 0, 1⟩ ∧
    (processEntity (lookupGT [c8Rotator, c8Target]) c8Rotator).1.transform.rotation ≠
      c8Rotator.transform.rotation := by
  have hstep := processEntity_eq_target_found (lookupGT [c8Rotator, c8Target]) c8Rotator
    ⟨2, UpDirection.Dir ⟨0, 1, 0⟩, false⟩ ⟨⟨0, 0, -5⟩, ⟨0, 0, 0, 1⟩, ⟨1, 1, 1⟩⟩
    rfl c8_lookup_target
  rw [c8_new_rotation] at hstep
  have hfar : ¬ Quat.absDiffEq (⟨0, 0, 0, 1⟩ : Quat) c8Rotator.transform.rotation
      rotateEpsilon := by
    intro hc
    have := hc.2.2.2
    norm_num [c8Rotator, rotateEpsilon] at this
  rw [if_pos hfar] at hstep
  refine ⟨rfl, c8_lookup_parent, ?_, ?_⟩
  · rw [hstep]
  · rw [hstep]
    intro hc
    have := congrArg Quat.w hc
    norm_num [c8Rotator] at this

/-- Claim C8, amended: when the parent link exists but the parent's world
transform cannot be resolved, the per-frame update behaves exactly as if
the rotator had no parent — same resulting local transform, same changed
flag, same error log — so the new rotation is still computed and written
when it differs; the prior rotation is not preserved. -/
theorem C8_parent_lookup_failure_ignored (gts : ℕ → Option GlobalTransform)
    (e : EntityData) (pid : ℕ) (hpar : e.parent = some pid) (hmiss : gts pid = none) :
    (processEntity gts e).1.transform =
      (processEntity gts { e with parent := none }).1.transform ∧
    (processEntity gts e).2 = (processEntity gts { e with parent := none }).2 := by
  obtain ⟨eid, etr, egt, epar, erto⟩ := e
  have hpar0 : epar = some pid := hpar
  subst hpar0
  cases erto with
  | none => exact ⟨rfl, rfl⟩
  | some rt =>
    simp only [processEntity]
    cases htgt : gts rt.entity with
    | none => exact ⟨rfl, rfl⟩
    | some tgt =>
      have heq : newRotationOf gts ⟨eid, etr, egt, some pid, some rt⟩ rt tgt =
          newRotationOf gts ⟨eid, etr, egt, none, some rt⟩ rt tgt := by
        unfold newRotationOf parentGTOf
        simp only [hmiss]
      simp only [heq]
      split_ifs with h
      · exact ⟨rfl, rfl⟩
      · exact ⟨rfl, rfl⟩

/-- Witness for the amended C8 at the counterexample world. -/
theorem C8_parent_lookup_failure_ignored_witness :
    c8Rotator.parent = some 99 ∧
    (fun _ : ℕ => (none : Option GlobalTransform)) 99 = none ∧
    (processEntity (fun _ => none) c8Rotator).1.transform =
      (processEntity (fun _ => none) { c8Rotator with parent := none }).1.transform :=
  ⟨rfl, rfl,
   (C8_parent_lookup_failure_ignored (fun _ => none) c8Rotator 99 rfl rfl).1⟩

/-- Claim C9: a failed world-transform recomputation for an entity that has
the directive and whose transform changed this tick aborts the refresh
(the `.expect` panic, modelled as `none`) — the failure is surfaced, never
silently swallowed; and whenever the refresh does complete, every such
entity's cached world transform has been overwritten with the recomputed
value, so no stale cache survives without warning. -/
theorem C9_refresh_failure_surfaced (recompute : ℕ → Option GlobalTransform)
    (l : List (EntityData × Bool)) :
    (∀ e : EntityData, (e, true) ∈ l → e.rotate_to.isSome → recompute e.id = none →
      update_global_transforms recompute l = none) ∧
    (∀ out : List EntityData, update_global_transforms recompute l = some out →
      ∀ (e : EntityData) (gt : GlobalTransform), (e, true) ∈ l → e.rotate_to.isSome →
        recompute e.id = some gt → { e with global_transform := gt } ∈ out) := by
  induction l with
  | nil =>
    constructor
    · intro e hmem
      simp at hmem
    · intro out hout e gt hmem
      simp at hmem
  | cons hd rest ih =>
    obtain ⟨he, hc⟩ := hd
    obtain ⟨hfail, hsucc⟩ := ih
    constructor
    · intro e hmem hdir hrec
      rcases List.mem_cons.mp hmem with heq | hmem'
      · have he1 : he = e := (Prod.mk.injEq _ _ _ _ ▸ heq.symm).1
        have hc1 : hc = true := (Prod.mk.injEq _ _ _ _ ▸ heq.symm).2
        subst he1
        subst hc1
        simp only [update_global_transforms]
        rw [if_pos ⟨hdir, by trivial⟩, hrec]
      · have hrest := hfail e hmem' hdir hrec
        simp only [update_global_transforms]
        split_ifs with hq
        · cases hr : recompute he.id with
          | none => rfl
          | some gt' => rw [hrest]; rfl
        · rw [hrest]; rfl
    · intro out hout e gt hmem hdir hrec
      simp only [update_global_transforms] at hout
      split_ifs at hout with hq
      · cases hr : recompute he.id with
        | none => rw [hr] at hout; cases hout
        | some gt' =>
          rw [hr] at hout
          cases hu : update_global_transforms recompute rest with
          | none => rw [hu] at hout; cases hout
          | some rs =>
            rw [hu] at hout
            have hout' : { he with global_transform := gt' } :: rs = out :=
              Option.some.injEq _ _ ▸ hout
            rcases List.mem_cons.mp hmem with heq | hmem'
            · have he1 : he = e := (Prod.mk.injEq _ _ _ _ ▸ heq.symm).1
              subst he1
              have : gt = gt' := by
                rw [hrec] at hr
                exact (Option.some.injEq _ _ ▸ hr)
              subst this
              rw [← hout']
              exact List.mem_cons_self _ _
            · rw [← hout']
              exact List.mem_cons_of_mem _ (hsucc rs hu e gt hmem' hdir hrec)
      · cases hu : update_global_transforms recompute rest with
        | none => rw [hu] at hout; cases hout
        | some rs =>
          rw [hu] at hout
          have hout' : he :: rs = out := Option.some.injEq _ _ ▸ hout
          rcases List.mem_cons.mp hmem with heq | hmem'
          · have he1 : he = e := (Prod.mk.injEq _ _ _ _ ▸ heq.symm).1
            have hc1 : hc = true := (Prod.mk.injEq _ _ _ _ ▸ heq.symm).2
            refine absurd ⟨?_, ?_⟩ hq
            · rw [he1]; exact hdir
            · rw [hc1]
          · rw [← hout']
            exact List.mem_cons_of_mem _ (hsucc rs hu e gt hmem' hdir hrec)

/-- Witness for C9: a changed directive-carrying entity whose recomputation
fails aborts the refresh. -/
theorem C9_refresh_failure_surfaced_witness :
    ((c8Rotator, true) ∈ [(c8Rotator, true)]) ∧
    c8Rotator.rotate_to.isSome = true ∧
    update_global_transforms (fun _ => none) [(c8Rotator, true)] = none := by
  refine ⟨List.mem_cons_self _ _, rfl, ?_⟩
  exact (C9_refresh_failure_surfaced (fun _ => none) [(c8Rotator, true)]).1
    c8Rotator (List.mem_cons_self _ _) rfl rfl

end LookAt
